import Mathlib

/-!
Verification of the ragrun Retrieval Orchestration Engine against its
natural-language specification.

The Python sources embedded here (shallowly) are:
  * app/retrieval/utils/retrievers.py   (primitives, RRF fusion, reranker, context builder)
  * app/retrieval/utils/retry.py        (retry_async)
  * app/retrieval/graphs/concept_explain_worldviews.py
                                        (adaptive cascade, chat reliability wrapper, graph)
  * app/retrieval/services/graph_event_recorder.py

Modelling conventions:
  * floats become exact rationals;
  * remote services (document store, chat client) are call-indexed scripts:
    each call consumes the next scripted response, so successive calls may
    return different values, exactly as a remote service may;
  * the embedding client is a pure function from text to a vector;
  * Python exceptions become Except values; an inductive mirrors the message
    shapes that the retry classifier inspects;
  * Python object identity (id(item)), used by the synthetic RRF key, is an
    explicit oid field on snippets.
-/

namespace Ragrun

/-- Python str.lstrip, on the character list so concrete runs reduce in the
kernel. -/
def py_lstrip (s : String) : String := ⟨s.data.dropWhile Char.isWhitespace⟩

/-- Python str.rstrip. -/
def py_rstrip (s : String) : String :=
  ⟨(s.data.reverse.dropWhile Char.isWhitespace).reverse⟩

/-- Python str.strip. -/
def py_strip (s : String) : String := py_lstrip (py_rstrip s)

/-- Python str.lower. -/
def py_lower (s : String) : String := ⟨s.data.map Char.toLower⟩

def sub_starts : List Char → List Char → Bool
  | _, [] => true
  | [], _ :: _ => false
  | h :: hs, p :: ps => h == p && sub_starts hs ps

def sub_any : List Char → List Char → Bool
  | [], pat => sub_starts [] pat
  | h :: hs, pat => sub_starts (h :: hs) pat || sub_any hs pat

/-- Substring test, modelling the Python in operator on strings. -/
def str_contains (s pat : String) : Bool := sub_any s.data pat.data

/-- Python sep.join. -/
def py_join (sep : String) : List String → String
  | [] => ""
  | [x] => x
  | x :: xs => x ++ sep ++ py_join sep xs

/-- Flat view of a Qdrant payload mapping: the two keys the engine reads. -/
structure PayloadFields where
  chunk_id : Option String
  text : Option String
deriving Repr, DecidableEq

/-- A payload mapping as seen by extract_chunk_id: the provenance fields may
sit nested one level under a "payload" key or at top level. -/
structure Payload where
  nested : Option PayloadFields
  top : PayloadFields
deriving Repr, DecidableEq

/-- RetrievedSnippet from app/retrieval/models.py, plus an oid field that
models Python object identity id(item) (distinct objects carry distinct oid),
needed only by the synthetic RRF key. -/
structure RetrievedSnippet where
  text : String
  score : ℚ
  oid : Nat
  payload : Payload
deriving Repr, DecidableEq

/-- One raw hit returned by the document store: a mapping with a "score" key
(possibly absent) and a "payload" sub-mapping. -/
structure StoreHit where
  score : Option ℚ
  payload : PayloadFields
  oid : Nat
deriving Repr, DecidableEq

/-- retrievers.py extract_chunk_id: if the payload carries a nested
"payload" mapping, only that mapping is consulted; otherwise the top level. -/
def extract_chunk_id (p : Payload) : Option String :=
  match p.nested with
  | some inner => inner.chunk_id
  | none => p.top.chunk_id

/-- The hit-to-snippet loop shared by dense_retrieve / sparse_retrieve /
hybrid_retrieve: drop hits whose payload text is missing or blank after
stripping; score defaults to 0; the snippet payload is the whole store item,
so provenance ends up nested under the "payload" key. -/
def hits_to_snippets (hits : List StoreHit) : List RetrievedSnippet :=
  hits.filterMap fun h =>
    let text := (h.payload.text).getD ""
    if py_strip text = "" then none
    else some { text := text, score := (h.score).getD 0, oid := h.oid,
                payload := { nested := some h.payload, top := ⟨none, none⟩ } }

/-- Global settings read inside the retrieval logic (app/config.py). -/
structure Settings where
  use_hybrid_retrieval : Bool
  hybrid_fallback_on_thin : Bool
deriving Repr, DecidableEq

/-- The remote document store, modelled as scripted responses: each dense or
sparse search consumes the next entry of its queue (an exception or a hit
list); sparseSupported models hasattr(qdrant_client, "search_sparse_points"). -/
structure StoreEnv where
  sparseSupported : Bool
  denseQueue : List (Except String (List StoreHit))
  sparseQueue : List (Except String (List StoreHit))
deriving Repr

def StoreEnv.popDense (st : StoreEnv) : Except String (List StoreHit) × StoreEnv :=
  (st.denseQueue.headD (Except.ok []), { st with denseQueue := st.denseQueue.tail })

def StoreEnv.popSparse (st : StoreEnv) : Except String (List StoreHit) × StoreEnv :=
  (st.sparseQueue.headD (Except.ok []), { st with sparseQueue := st.sparseQueue.tail })

/-- retrievers.py dense_retrieve: embed the query, search, keep non-blank
hits. The embedding call and the filter construction do not influence the
scripted store response. -/
def dense_retrieve (st : StoreEnv) :
    Except String (List RetrievedSnippet) × StoreEnv :=
  match st.popDense with
  | (Except.error e, st') => (Except.error e, st')
  | (Except.ok hits, st') => (Except.ok (hits_to_snippets hits), st')

/-- retrievers.py sparse_retrieve: hard capability check first (raises
RuntimeError when the client lacks sparse search), then the filtered search;
a store exception propagates. -/
def sparse_retrieve (st : StoreEnv) :
    Except String (List RetrievedSnippet) × StoreEnv :=
  if st.sparseSupported then
    match st.popSparse with
    | (Except.error e, st') => (Except.error e, st')
    | (Except.ok hits, st') => (Except.ok (hits_to_snippets hits), st')
  else
    (Except.error "Sparse retrieval not supported by qdrant client", st)

/-- Key of the RRF score dictionary: the extracted chunk id, or the synthetic
per-object key idx-id(item)-rank for unidentified items. -/
inductive RrfKey
  | cid (c : String)
  | synthetic (oid rank : Nat)
deriving Repr, DecidableEq

def rrf_key (item : RetrievedSnippet) (rank : Nat) : RrfKey :=
  match extract_chunk_id item.payload with
  | some c => RrfKey.cid c
  | none => RrfKey.synthetic item.oid rank

/-- Python dict update scores[k] = scores.get(k, 0.0) + v on an
insertion-ordered association list: an existing key keeps its position, a new
key is appended. -/
def dict_bump : List (RrfKey × ℚ) → RrfKey → ℚ → List (RrfKey × ℚ)
  | [], k, v => [(k, v)]
  | p :: ps, k, v => if p.1 = k then (p.1, p.2 + v) :: ps else p :: dict_bump ps k v

/-- seen.setdefault-style insert: only the first snippet per key is kept. -/
def seen_add : List (RrfKey × RetrievedSnippet) → RrfKey → RetrievedSnippet →
    List (RrfKey × RetrievedSnippet)
  | [], k, it => [(k, it)]
  | p :: ps, k, it => if p.1 = k then p :: ps else p :: seen_add ps k it

def seen_get : List (RrfKey × RetrievedSnippet) → RrfKey → Option RetrievedSnippet
  | [], _ => none
  | p :: ps, k => if p.1 = k then some p.2 else seen_get ps k

/-- The _bump inner loop of rrf_fuse: rank is 1-based; each item contributes
weight * 1/(k_rrf + rank) to its key. -/
def rrf_bump (w : ℚ) (k_rrf : Nat) :
    List RetrievedSnippet → Nat → List (RrfKey × ℚ) → List (RrfKey × RetrievedSnippet) →
    List (RrfKey × ℚ) × List (RrfKey × RetrievedSnippet)
  | [], _, scores, seen => (scores, seen)
  | it :: rest, rank, scores, seen =>
      let k := rrf_key it rank
      rrf_bump w k_rrf rest (rank + 1)
        (dict_bump scores k (w * (1 / ((k_rrf : ℚ) + (rank : ℚ)))))
        (seen_add seen k it)

/-- Stable insertion of x into a list already sorted descending by key:
x goes after every element whose key is not smaller, which models the
stability of Python sorted(..., reverse=True). -/
def insert_desc_by (key : α → ℚ) (x : α) : List α → List α
  | [] => [x]
  | y :: ys => if key y < key x then x :: y :: ys else y :: insert_desc_by key x ys

/-- Stable descending sort by a rational key (Python sorted with
reverse=True): elements are inserted left to right, and each lands after the
elements of equal key that arrived before it. -/
def sort_desc_by (key : α → ℚ) (l : List α) : List α :=
  l.foldl (fun acc x => insert_desc_by key x acc) []

/-- The scores dictionary and seen map of _rrf_fuse after bumping the dense
list and then the sparse list, both at weight 1. -/
def rrf_state (dense_hits sparse_hits : List RetrievedSnippet) (k_rrf : Nat) :
    List (RrfKey × ℚ) × List (RrfKey × RetrievedSnippet) :=
  let b1 := rrf_bump 1 k_rrf dense_hits 1 [] []
  rrf_bump 1 k_rrf sparse_hits 1 b1.1 b1.2

/-- The ordered = sorted(scores.items(), key=score, reverse=True) step of
_rrf_fuse. -/
def rrf_ordered (dense_hits sparse_hits : List RetrievedSnippet) (k_rrf : Nat) :
    List (RrfKey × ℚ) :=
  sort_desc_by Prod.snd (rrf_state dense_hits sparse_hits k_rrf).1

/-- retrievers.py _rrf_fuse: bump both lists into one score dictionary, order
keys by descending summed score, truncate to k_fused, map every key back to
its first-seen snippet. -/
def rrf_fuse (dense_hits sparse_hits : List RetrievedSnippet)
    (k_rrf : Nat := 60) (k_fused : Nat := 30) : List RetrievedSnippet :=
  ((rrf_ordered dense_hits sparse_hits k_rrf).take k_fused).filterMap fun p =>
    seen_get (rrf_state dense_hits sparse_hits k_rrf).2 p.1

/-- retrievers.py _dot: dimension mismatch scores 0 rather than throwing. -/
def dot (a b : List ℚ) : ℚ :=
  if a.length ≠ b.length then 0
  else ((a.zip b).map fun p => p.1 * p.2).sum

/-- retrievers.py rerank_by_embedding: empty input short-circuits without an
embedding call; otherwise score every snippet by dot with the query vector,
stable-sort descending, truncate to k_final. The embedding client is the pure
function embed. -/
def rerank_by_embedding (embed : String → List ℚ) (query : String)
    (snippets : List RetrievedSnippet) (k_final : Nat) : List RetrievedSnippet :=
  match snippets with
  | [] => []
  | _ =>
    let query_vec := embed query
    let scored := snippets.map fun s => (dot query_vec (embed s.text), s)
    ((sort_desc_by Prod.fst scored).take k_final).map Prod.snd

/-- retrievers.py build_context: concatenate stripped snippet texts until the
budget would be exceeded; note that the chunk id of a snippet is collected
before the budget check, so the snippet that first exceeds the budget still
contributes its ref. -/
def build_context (snippets : List RetrievedSnippet) (max_chars : Nat := 12000) :
    String × List String :=
  let rec go : List RetrievedSnippet → Nat → List String → List String →
      List String × List String
    | [], _, parts, refs => (parts.reverse, refs.reverse)
    | snip :: rest, total, parts, refs =>
      let text := py_strip snip.text
      if text = "" then go rest total parts refs
      else
        let refs' := match extract_chunk_id snip.payload with
          | some cid => if cid = "" then refs else cid :: refs
          | none => refs
        if total + text.length > max_chars then (parts.reverse, refs'.reverse)
        else go rest (total + text.length) (text :: parts) refs'
  let r := go snippets 0 [] []
  (py_join "\n\n" r.1, r.2)

/-- retrievers.py hybrid_retrieve: dense first; sparse only when hybrid is
globally enabled or forced and k_sparse is positive; a missing sparse
capability or a sparse exception silently degrades to the dense-only result;
otherwise the two lists are fused with RRF to k_fused. The dense candidate
count only shapes the remote query, which the scripted store abstracts. -/
def hybrid_retrieve (stg : Settings) (k_sparse k_fused : Nat) (force_sparse : Bool)
    (st : StoreEnv) : Except String (List RetrievedSnippet) × StoreEnv :=
  match dense_retrieve st with
  | (Except.error e, st') => (Except.error e, st')
  | (Except.ok dense_hits, st') =>
    if (stg.use_hybrid_retrieval = false ∧ force_sparse = false) ∨ k_sparse = 0 then
      (Except.ok dense_hits, st')
    else if st'.sparseSupported then
      match st'.popSparse with
      | (Except.error _, st'') => (Except.ok dense_hits, st'')
      | (Except.ok sparse_raw, st'') =>
          (Except.ok (rrf_fuse dense_hits (hits_to_snippets sparse_raw) 60 k_fused), st'')
    else
      (Except.ok dense_hits, st')

/-- concept_explain_worldviews.py RetrievalConfig with its source defaults. -/
structure RetrievalConfig where
  k_base_concept : Nat := 10
  k_base_context1 : Nat := 5
  k_base_context2 : Nat := 10
  k_final_concept : Nat := 6
  k_final_context1 : Nat := 4
  k_final_context2 : Nat := 6
  widen_concept : Nat := 18
  widen_context1 : Nat := 10
  widen_context2 : Nat := 18
  hybrid_k_dense : Nat := 12
  hybrid_k_sparse : Nat := 30
  hybrid_k_fused : Nat := 30
deriving Repr, DecidableEq

/-- concept_explain_worldviews.py RetrievalOutcome. -/
structure RetrievalOutcome where
  hits : List RetrievedSnippet := []
  widened_hits : List RetrievedSnippet := []
  mode : String := "dense"
deriving Repr, DecidableEq

/-- concept_explain_worldviews.py _should_widen: thin when fewer than k_final
snippets or less than 400 characters of total text. -/
def should_widen (snippets : List RetrievedSnippet) (k_final : Nat)
    (min_chars : Nat := 400) : Bool :=
  if snippets.length < k_final then true
  else decide ((snippets.map fun s => s.text.length).sum < min_chars)

def snippets_total_chars (snippets : List RetrievedSnippet) : Nat :=
  (snippets.map fun s => s.text.length).sum

/-- concept_explain_worldviews.py _is_better_candidate: prefer the candidate
when it has more hits, otherwise when it has more total characters. -/
def is_better_candidate (candidate current : List RetrievedSnippet) : Bool :=
  if candidate.length > current.length then true
  else decide (snippets_total_chars candidate > snippets_total_chars current)

/-- The first retrieval of _run_path: the primitive selected by mode. -/
def path_primary (stg : Settings) (cfg : RetrievalConfig) (mode : String)
    (st : StoreEnv) : Except String (List RetrievedSnippet) × StoreEnv :=
  if mode = "sparse" then sparse_retrieve st
  else if mode = "hybrid" then
    hybrid_retrieve stg cfg.hybrid_k_sparse cfg.hybrid_k_fused false st
  else dense_retrieve st

/-- The widened retrieval of _run_path: sparse re-runs sparse, every other
mode (dense AND hybrid) runs dense at the widen-to count. -/
def path_widen_call (mode : String) (st : StoreEnv) :
    Except String (List RetrievedSnippet) × StoreEnv :=
  if mode = "sparse" then sparse_retrieve st else dense_retrieve st

def path_mode_label (mode : String) : String :=
  if mode = "sparse" then "sparse" else if mode = "hybrid" then "hybrid" else "dense"

/-- The _run_path closure of _retrieve_with_widen: run the primitive named by
mode at the base count, rerank to k_final; when thin, run path_widen_call and
rerank again. Returns (reranked hits, widened raw hits, mode label). -/
def run_path (stg : Settings) (embed : String → List ℚ) (query : String)
    (cfg : RetrievalConfig) (k_final : Nat) (mode : String) (st : StoreEnv) :
    Except String (List RetrievedSnippet × List RetrievedSnippet × String) × StoreEnv :=
  match path_primary stg cfg mode st with
  | (Except.error e, st₁) => (Except.error e, st₁)
  | (Except.ok hits, st₁) =>
    let reranked := rerank_by_embedding embed query hits k_final
    if should_widen reranked k_final then
      match path_widen_call mode st₁ with
      | (Except.error e, st₂) => (Except.error e, st₂)
      | (Except.ok widened_hits, st₂) =>
        let reranked₂ := rerank_by_embedding embed query widened_hits k_final
        (Except.ok (reranked₂, widened_hits, path_mode_label mode), st₂)
    else
      (Except.ok (reranked, [], path_mode_label mode), st₁)

/-- concept_explain_worldviews.py _retrieve_with_widen: choose the base
strategy, run it (with internal widening), fail hard when sparse_only yields
no hits, and otherwise possibly run the hybrid fallback-on-thin path, keeping
the hybrid candidate when _is_better_candidate says so. The base and widen-to
candidate counts shape only the remote queries, which the scripted store
abstracts, so they do not appear as arguments here. -/
def retrieve_with_widen (stg : Settings) (embed : String → List ℚ) (query : String)
    (cfg : RetrievalConfig) (k_final : Nat) (hybrid sparse_only : Bool)
    (st : StoreEnv) : Except String RetrievalOutcome × StoreEnv :=
  let base_mode := if sparse_only then "sparse"
    else if hybrid ∧ stg.use_hybrid_retrieval then "hybrid" else "dense"
  match run_path stg embed query cfg k_final base_mode st with
  | (Except.error e, st₁) => (Except.error e, st₁)
  | (Except.ok (base_hits, base_widened, base_mode_label), st₁) =>
    let chosen : RetrievalOutcome :=
      { hits := base_hits, widened_hits := base_widened, mode := base_mode_label }
    if sparse_only ∧ base_hits = [] then
      (Except.error "Sparse retrieval returned no hits", st₁)
    else if sparse_only = false ∧ stg.hybrid_fallback_on_thin ∧ base_mode ≠ "hybrid" ∧
        stg.use_hybrid_retrieval ∧ should_widen base_hits k_final then
      match run_path stg embed query cfg k_final "hybrid" st₁ with
      | (Except.error e, st₂) => (Except.error e, st₂)
      | (Except.ok (hybrid_hits, hybrid_widened, _), st₂) =>
        if is_better_candidate hybrid_hits base_hits then
          (Except.ok { hits := hybrid_hits, widened_hits := hybrid_widened,
                       mode := base_mode_label ++ "->hybrid" }, st₂)
        else (Except.ok chosen, st₂)
    else (Except.ok chosen, st₁)

/-- A Python exception as the retry classifier sees it: its message, whether
it is a RetryableCompletionError, and the optional HTTP status code hanging
off exc.response. -/
structure Exc where
  msg : String
  isRetryableCompletion : Bool
  statusCode : Option Nat
deriving Repr, DecidableEq

/-- concept_explain_worldviews.py _is_retryable_llm_error. -/
def is_retryable_llm_error (e : Exc) : Bool :=
  if e.isRetryableCompletion then true
  else
    let message := py_lower e.msg
    if str_contains message "deepseek returned empty content" then true
    else if str_contains message "deepseek returned no choices" then true
    else match e.statusCode with
      | some c => decide (c ≠ 0) && decide (500 ≤ c)
      | none => false

/-- retry.py retry_async, as a loop over an effectful callable modelled by a
state function. fuel is the number of retries still allowed (retries minus
attempt), attempt counts failures so far. Returns the final outcome and
state, the list of slept delays, and the number of calls made. The jitter
stream jitters models the successive random.uniform(-jitter, jitter) draws,
indexed by the failure count. -/
def retry_async_loop (run : σ → Except Exc α × σ) (retry_on : Exc → Bool)
    (base_delay max_delay jitter : ℚ) (jitters : Nat → ℚ) :
    Nat → Nat → σ → (Except Exc α × σ) × List ℚ × Nat
  | fuel, attempt, s =>
    match run s with
    | (Except.ok a, s') => ((Except.ok a, s'), ([], 1))
    | (Except.error e, s') =>
      match fuel with
      | 0 => ((Except.error e, s'), ([], 1))
      | fuel' + 1 =>
        if retry_on e = false then ((Except.error e, s'), ([], 1))
        else
          let d₀ := min max_delay (base_delay * 2 ^ attempt)
          let d₁ := if jitter ≠ 0 then d₀ * (1 + jitters (attempt + 1)) else d₀
          let d := max 0 d₁
          let r := retry_async_loop run retry_on base_delay max_delay jitter jitters
            fuel' (attempt + 1) s'
          (r.1, (d :: r.2.1, r.2.2 + 1))

def retry_async (run : σ → Except Exc α × σ) (retry_on : Exc → Bool)
    (retries : Nat) (base_delay max_delay jitter : ℚ) (jitters : Nat → ℚ)
    (s : σ) : (Except Exc α × σ) × List ℚ × Nat :=
  retry_async_loop run retry_on base_delay max_delay jitter jitters retries 0 s

/-- A chat message, role and content. -/
structure Msg where
  role : String
  content : String
deriving Repr, DecidableEq

/-- The chat side of the world: the scripted client responses, the stream of
timestamps datetime.now produces for nonces, and a log of every message list
handed to client.chat. -/
structure ChatEnv where
  responses : List (Except Exc String)
  nonces : List String
  sent : List (List Msg)
deriving Repr

def ChatEnv.popNonce (env : ChatEnv) : String × ChatEnv :=
  (env.nonces.headD "", { env with nonces := env.nonces.tail })

/-- One client.chat call: log the outbound messages, consume the next
scripted response. -/
def chat_call (msgs : List Msg) (env : ChatEnv) : Except Exc String × ChatEnv :=
  (env.responses.headD (Except.error ⟨"no scripted response", false, none⟩),
   { env with responses := env.responses.tail, sent := env.sent ++ [msgs] })

def nonce_msg (n : String) : Msg := ⟨"system", "nonce: " ++ n ++ " (ignore)"⟩

def sentence_enders : List Char := ['.', '!', '?']

/-- The optional closing quote or bracket of SENTENCE_END_RE, written by code
point: double quote, apostrophe, left and right curly double quotes, curly
apostrophe, right guillemet, closing parenthesis and bracket. -/
def sentence_closers : List Char :=
  [Char.ofNat 34, Char.ofNat 39, Char.ofNat 0x201C, Char.ofNat 0x201D,
   Char.ofNat 0x2019, Char.ofNat 0xBB, ')', ']']

/-- SENTENCE_END_RE searched on stripped text: the text ends in . ! or ?,
optionally followed by one closing quote or bracket. -/
def sentence_end_match (s : String) : Bool :=
  match (py_strip s).data.reverse with
  | [] => false
  | c :: rest =>
    if sentence_enders.contains c then true
    else if sentence_closers.contains c then
      match rest with
      | [] => false
      | c₂ :: _ => sentence_enders.contains c₂
    else false

/-- The _is_incomplete closure of _chat_with_retry. -/
def is_incomplete (require_sentence_end : Bool) (min_chars : Option Nat)
    (text : String) : Bool :=
  let stripped := py_strip text
  if stripped = "" then true
  else if require_sentence_end && !sentence_end_match stripped then true
  else match min_chars with
    | some m => decide (stripped.length < m)
    | none => false

/-- The _run_once closure of _chat_with_retry: send the precomputed outbound
messages; when the reply lacks sentence-final punctuation, issue one
continuation call (with a freshly drawn nonce) and merge the two parts; an
incomplete final text raises RetryableCompletionError. -/
def run_once (require_sentence_end : Bool) (min_chars : Option Nat)
    (completion_instruction : String) (messages outbound : List Msg)
    (env : ChatEnv) : Except Exc (String × List Msg) × ChatEnv :=
  match chat_call outbound env with
  | (Except.error e, env₁) => (Except.error e, env₁)
  | (Except.ok result, env₁) =>
    if require_sentence_end && !sentence_end_match result then
      let pn := env₁.popNonce
      let completion_messages :=
        nonce_msg pn.1 :: (messages ++ [⟨"assistant", result⟩, ⟨"user", completion_instruction⟩])
      match chat_call completion_messages pn.2 with
      | (Except.error e, env₂) => (Except.error e, env₂)
      | (Except.ok completion, env₂) =>
        let combined := py_strip (py_rstrip result ++ " " ++ py_lstrip completion)
        if is_incomplete require_sentence_end min_chars combined then
          (Except.error ⟨"Completion produced an incomplete response", true, none⟩, env₂)
        else (Except.ok (combined, completion_messages), env₂)
    else if is_incomplete require_sentence_end min_chars result then
      (Except.error ⟨"Response too short or incomplete", true, none⟩, env₁)
    else (Except.ok (result, outbound), env₁)

/-- concept_explain_worldviews.py _chat_with_retry: draw one nonce, build the
outbound message list once, and hand _run_once to retry_async with base
delay 1s, max delay 8s, jitter 0.2 and _is_retryable_llm_error. -/
def chat_with_retry (messages : List Msg) (retries : Nat := 3)
    (min_chars : Option Nat := none) (require_sentence_end : Bool := true)
    (completion_instruction : String :=
      "Schliesse den Text sauber ab. Setze einen klaren Schlusssatz.")
    (jitters : Nat → ℚ := fun _ => 0) (env : ChatEnv) :
    (Except Exc (String × List Msg) × ChatEnv) × List ℚ × Nat :=
  let pn := env.popNonce
  let outbound := nonce_msg pn.1 :: messages
  retry_async
    (run_once require_sentence_end min_chars completion_instruction messages outbound)
    is_retryable_llm_error retries 1 8 (1/5) jitters pn.2

/-- A persistence-layer exception: whether it is a sqlalchemy DBAPIError,
and its message. -/
structure DbExc where
  isDbApiError : Bool
  msg : String
deriving Repr, DecidableEq

/-- graph_event_recorder.py GraphEventRecorder.record_event, abstracted over
the outcome of the two possible insert attempts (the initial row and the
fallback row without context_source). Every failure path logs and returns;
nothing re-raises. -/
def record_event (insert_row insert_fallback : Except DbExc Unit) :
    Except DbExc Unit :=
  match insert_row with
  | Except.ok () => Except.ok ()
  | Except.error e =>
    if e.isDbApiError &&
        (str_contains (py_lower e.msg) "context_source" &&
         str_contains (py_lower e.msg) "does not exist") then
      match insert_fallback with
      | Except.ok () => Except.ok ()
      | Except.error _ => Except.ok ()
    else Except.ok ()

/-- retrieval/models.py WorldviewAnswer. -/
structure WorldviewAnswer where
  worldview : String
  main_points : String
  how_details : String
  context1_refs : List String
  context2_refs : List String
  sufficiency : String := "medium"
  errors : Option (List String) := none
deriving Repr, DecidableEq

/-- retrieval/models.py ConceptExplainWorldviewsResult (the uuid-valued
graph_event_id is omitted). -/
structure ConceptExplainWorldviewsResult where
  concept : String
  concept_explanation : String
  worldviews : List WorldviewAnswer
  context_refs : List String
deriving Repr, DecidableEq

/-- Python dict merge d | new entry: an existing key is overwritten in
place, a new key appended (last-write-wins). -/
def dict_set : List (String × WorldviewAnswer) → String → WorldviewAnswer →
    List (String × WorldviewAnswer)
  | [], k, v => [(k, v)]
  | p :: ps, k, v => if p.1 = k then (p.1, v) :: ps else p :: dict_set ps k v

/-- The merge loop over asyncio.gather(..., return_exceptions=True) results:
exceptions are logged and skipped, answers merged last-write-wins by
worldview key. -/
def merge_answers (answers : List (Except Exc WorldviewAnswer)) :
    List (String × WorldviewAnswer) :=
  answers.foldl
    (fun m a => match a with
      | Except.error _ => m
      | Except.ok ans => dict_set m ans.worldview ans)
    []

/-- concept_explain_worldviews.py run_concept_explain_worldviews_graph,
shared stage and branch fan-out. The per-worldview unit of work (its own two
retrieval stages and two chat steps) is the function branch, whose value per
worldview is the answer or the exception that asyncio.gather captures.
Event recording and telemetry never raise (record_event_never_raises below,
and telemetry swallows all exceptions), so they are not threaded through.
The caller-facing hybrid resolution from settings happens before this core,
whose hybrid argument is the resolved flag. -/
def run_concept_explain_worldviews_graph (stg : Settings)
    (embed : String → List ℚ) (concept : String) (worldviews : List String)
    (cfg : RetrievalConfig) (hybrid : Bool)
    (philo_prompt : String → String → List Msg)
    (branch : String → Except Exc WorldviewAnswer)
    (chat_env : ChatEnv) (store : StoreEnv) (jitters : Nat → ℚ) :
    Except String ConceptExplainWorldviewsResult :=
  if py_strip concept = "" then Except.error "concept is required"
  else if worldviews = [] then Except.error "worldviews must not be empty"
  else
    match retrieve_with_widen stg embed concept cfg
        cfg.k_final_concept hybrid true store with
    | (Except.error e, _) => Except.error e
    | (Except.ok concept_outcome, _) =>
      let bc := build_context concept_outcome.hits
      let philo_messages := philo_prompt concept bc.1
      if concept_outcome.hits = [] then
        Except.error "Sparse concept retrieval returned no hits; aborting graph"
      else
        match (chat_with_retry philo_messages 3 (some 900) true
            "Schliesse den Text sauber ab. Setze einen klaren Schlusssatz."
            jitters chat_env).1.1 with
        | Except.error e => Except.error e.msg
        | Except.ok (concept_explanation, _) =>
          let answers := worldviews.map branch
          let results_map := merge_answers answers
          Except.ok
            { concept := concept,
              concept_explanation := concept_explanation,
              worldviews := results_map.map Prod.snd,
              context_refs := bc.2 }

/-! Concrete fixtures used by counterexamples and witnesses. -/

/-- A store hit with the given chunk id, a text of len letters, and oid o. -/
def mk_hit (cid : String) (len o : Nat) : StoreHit :=
  ⟨some 1, ⟨some cid, some (String.mk (List.replicate len 'a'))⟩, o⟩

/-- A degenerate embedding client returning the empty vector for every text:
every rerank score is then the empty dot product 0 and the stable sort keeps
the incoming order. -/
def embed0 : String → List ℚ := fun _ => []

def c9_snip1 : RetrievedSnippet := ⟨"abc", 1, 0, ⟨some ⟨some "id1", some "abc"⟩, ⟨none, none⟩⟩⟩

def c9_snip2 : RetrievedSnippet := ⟨"defg", 1, 1, ⟨some ⟨some "id2", some "defg"⟩, ⟨none, none⟩⟩⟩

def c4_hits : List StoreHit := (List.range 10).map fun i => mk_hit ("c" ++ toString i) 50 i

def c4_store : StoreEnv := ⟨true, [], [Except.ok c4_hits, Except.ok c4_hits]⟩

/-! Theorems for the claims. -/

set_option maxRecDepth 400000

/-- Claim C8: every graph-event recording call swallows persistence failures:
whatever the two insert attempts do, record_event returns normally, so a sink
failure can never propagate to (or alter the result of) the orchestration
caller. -/
theorem c8_record_event_never_raises (insert_row insert_fallback : Except DbExc Unit) :
    record_event insert_row insert_fallback = Except.ok () := by
  unfold record_event
  split
  · rfl
  · split
    · split <;> rfl
    · rfl

/-- Claim C9 counterexample: with a budget of 5 characters, the context takes
only the first snippet text "abc", yet the returned provenance list also
contains the chunk id of the second snippet, whose text was excluded — the
refs are not exactly the ids of the included snippets. -/
theorem c9_counterexample :
    (build_context [c9_snip1, c9_snip2] 5).1 = "abc" ∧
    (build_context [c9_snip1, c9_snip2] 5).2 = ["id1", "id2"] :=
  ⟨rfl, rfl⟩

/-- Claim C6: a sparse-only cascade invocation that returns normally always
returns a non-empty hits list; a run whose sparse path ends with zero hits
(after any widening) raises instead. -/
theorem c6_sparse_only_no_empty_outcome
    (stg : Settings) (embed : String → List ℚ) (query : String)
    (cfg : RetrievalConfig) (k_final : Nat) (hybrid : Bool)
    (st st' : StoreEnv) (outcome : RetrievalOutcome)
    (h : retrieve_with_widen stg embed query cfg k_final hybrid true st =
      (Except.ok outcome, st')) :
    outcome.hits ≠ [] := by
  simp only [retrieve_with_widen, if_true, true_and] at h
  split at h
  · exact Except.noConfusion (congrArg Prod.fst h)
  · next bh bw bl st₁ heq =>
    by_cases hb : bh = []
    · rw [if_pos] at h
      · exact Except.noConfusion (congrArg Prod.fst h)
      · exact hb
    · rw [if_neg hb] at h
      split at h
      · next hcond => exact absurd hcond (by simp)
      · have h₁ := congrArg Prod.fst h
        simp only at h₁
        have : outcome = ⟨bh, bw, bl⟩ := (Except.ok.inj h₁).symm
        rw [this]
        exact hb

/-- Claim C6 witness: a concrete sparse-only run that returns normally, at
which the theorem yields a non-empty hits list. -/
theorem c6_witness :
    (⟨hits_to_snippets [mk_hit "w" 500 0], [], "sparse"⟩ : RetrievalOutcome).hits ≠ [] :=
  c6_sparse_only_no_empty_outcome ⟨false, true⟩ embed0 "q" {} 1 false
    ⟨true, [], [Except.ok [mk_hit "w" 500 0]]⟩ ⟨true, [], []⟩
    ⟨hits_to_snippets [mk_hit "w" 500 0], [], "sparse"⟩ rfl

theorem c4_amended_sparse_widen
    (stg : Settings) (embed : String → List ℚ) (query : String)
    (cfg : RetrievalConfig) (k_final : Nat) (hybrid : Bool)
    (dq : List (Except String (List StoreHit))) (h₁ h₂ : List StoreHit)
    (hthin : should_widen (rerank_by_embedding embed query (hits_to_snippets h₁) k_final)
      k_final = true)
    (hne : rerank_by_embedding embed query (hits_to_snippets h₂) k_final ≠ []) :
    retrieve_with_widen stg embed query cfg k_final hybrid true
      ⟨true, dq, [Except.ok h₁, Except.ok h₂]⟩ =
    (Except.ok ⟨rerank_by_embedding embed query (hits_to_snippets h₂) k_final,
      hits_to_snippets h₂, "sparse"⟩, ⟨true, dq, []⟩) := by
  simp only [retrieve_with_widen, run_path, path_primary, path_widen_call, path_mode_label,
    sparse_retrieve, StoreEnv.popSparse, if_true, true_and, reduceIte, List.headD, List.tail]
  rw [if_pos hthin]
  simp only [hne, Bool.true_eq_false, false_and, if_false, reduceIte, ite_false]

def c1_small : List StoreHit := [mk_hit "s1" 10 0, mk_hit "s2" 10 1]

def c1_big : List StoreHit := [mk_hit "big" 100 2]

def c1_store : StoreEnv :=
  ⟨true, [Except.ok [], Except.ok c1_small, Except.ok [], Except.ok c1_big], [Except.ok []]⟩

theorem c1_counterexample :
    (retrieve_with_widen ⟨true, true⟩ embed0 "q" {} 6 false false c1_store).1 =
      Except.ok ⟨hits_to_snippets c1_big, hits_to_snippets c1_big, "dense->hybrid"⟩ ∧
    (run_path ⟨true, true⟩ embed0 "q" {} 6 "dense" c1_store).1 =
      Except.ok (hits_to_snippets c1_small, hits_to_snippets c1_small, "dense") ∧
    (hits_to_snippets c1_big).length < (hits_to_snippets c1_small).length :=
  ⟨rfl, rfl, by decide⟩

def c2_dx : List StoreHit := [mk_hit "dx" 10 0]

def c2_store : StoreEnv :=
  ⟨true, [Except.ok [], Except.ok c2_dx],
   [Except.ok [mk_hit "sp" 500 1], Except.ok [mk_hit "other" 500 2]]⟩

theorem c2_counterexample :
    (retrieve_with_widen ⟨true, true⟩ embed0 "q" {} 6 true false c2_store).1 =
      Except.ok ⟨hits_to_snippets c2_dx, hits_to_snippets c2_dx, "hybrid"⟩ ∧
    (retrieve_with_widen ⟨true, true⟩ embed0 "q" {} 6 true false c2_store).2.sparseQueue.length = 1 :=
  ⟨rfl, rfl⟩

theorem c2_amended_widen_primitive
    (stg : Settings) (embed : String → List ℚ) (query : String)
    (cfg : RetrievalConfig) (k_final : Nat) (mode : String)
    (st st₁ st₂ : StoreEnv) (hits wh : List RetrievedSnippet)
    (h1 : path_primary stg cfg mode st = (Except.ok hits, st₁))
    (hthin : should_widen (rerank_by_embedding embed query hits k_final) k_final = true)
    (h2 : path_widen_call mode st₁ = (Except.ok wh, st₂)) :
    run_path stg embed query cfg k_final mode st =
      (Except.ok (rerank_by_embedding embed query wh k_final, wh, path_mode_label mode), st₂) ∧
    path_widen_call "hybrid" st₁ = dense_retrieve st₁ := by
  constructor
  · unfold run_path
    rw [h1]
    simp only [hthin, if_true, reduceIte]
    rw [h2]
  · rfl

def empty_content_exc : Exc := ⟨"DeepSeek returned empty content", false, none⟩

theorem c3_counterexample :
    (chat_with_retry [⟨"user", "Hallo"⟩] 1 none true "fertig" (fun _ => 0)
      ⟨[Except.error empty_content_exc, Except.error empty_content_exc],
       ["t1", "t2", "t3"], []⟩).1.2.sent =
      [[nonce_msg "t1", ⟨"user", "Hallo"⟩], [nonce_msg "t1", ⟨"user", "Hallo"⟩]] ∧
    ("t1" : String) ≠ "t2" :=
  ⟨rfl, by decide⟩

theorem c1_amended_fallback_keep_rule
    (stg : Settings) (embed : String → List ℚ) (query : String)
    (cfg : RetrievalConfig) (k_final : Nat)
    (st st₁ st₂ : StoreEnv) (bh bw hh hw : List RetrievedSnippet) (bl hl : String)
    (hfb : stg.hybrid_fallback_on_thin = true)
    (huh : stg.use_hybrid_retrieval = true)
    (hbase : run_path stg embed query cfg k_final "dense" st = (Except.ok (bh, bw, bl), st₁))
    (hthin : should_widen bh k_final = true)
    (hhyb : run_path stg embed query cfg k_final "hybrid" st₁ = (Except.ok (hh, hw, hl), st₂)) :
    retrieve_with_widen stg embed query cfg k_final false false st =
      (if bh.length < hh.length ∨ snippets_total_chars bh < snippets_total_chars hh
        then (Except.ok ⟨hh, hw, bl ++ "->hybrid"⟩, st₂)
        else (Except.ok ⟨bh, bw, bl⟩, st₂)) := by
  simp only [retrieve_with_widen, Bool.false_eq_true, false_and, if_false, ite_false]
  rw [hbase]
  simp only [hfb, huh, hthin, Bool.false_eq_true, false_and, if_false, ite_false,
    ne_eq, String.reduceEq, not_false_eq_true, and_self, and_true, true_and, if_true, ite_true,
    eq_self_iff_true]
  rw [hhyb]
  by_cases h1 : bh.length < hh.length
  · simp [is_better_candidate, gt_iff_lt, h1]
  · by_cases h2 : snippets_total_chars bh < snippets_total_chars hh
    · simp [is_better_candidate, gt_iff_lt, h1, h2]
    · simp [is_better_candidate, gt_iff_lt, h1, h2]

/-- Helper: one failing attempt of run_once over an all-error script. -/
lemma run_once_error (rse : Bool) (mc : Option Nat) (ci : String)
    (messages outbound : List Msg) (e : Exc) (rest : List (Except Exc String))
    (nonces : List String) (sent : List (List Msg)) :
    run_once rse mc ci messages outbound ⟨Except.error e :: rest, nonces, sent⟩ =
      (Except.error e, ⟨rest, nonces, sent ++ [outbound]⟩) := by
  simp [run_once, chat_call]

/-- Helper: the retry loop over a script of retryable errors makes fuel + 1
attempts, sleeps the backoff schedule, fails, and has sent the precomputed
outbound messages once per attempt. -/
lemma chat_all_fail_loop (rse : Bool) (mc : Option Nat) (ci : String)
    (messages outbound : List Msg) (jit : Nat → ℚ) :
    ∀ (fuel attempt : Nat) (env : ChatEnv),
    (∀ r ∈ env.responses, ∃ e, r = Except.error e ∧ is_retryable_llm_error e = true) →
    fuel + 1 ≤ env.responses.length →
    ((retry_async_loop (run_once rse mc ci messages outbound) is_retryable_llm_error
        1 8 (1/5) jit fuel attempt env).1.1.isOk = false) ∧
    ((retry_async_loop (run_once rse mc ci messages outbound) is_retryable_llm_error
        1 8 (1/5) jit fuel attempt env).2.2 = fuel + 1) ∧
    ((retry_async_loop (run_once rse mc ci messages outbound) is_retryable_llm_error
        1 8 (1/5) jit fuel attempt env).2.1 = (List.range fuel).map fun i =>
        max 0 ((min 8 ((1 : ℚ) * 2 ^ (attempt + i))) * (1 + jit (attempt + i + 1)))) ∧
    ((retry_async_loop (run_once rse mc ci messages outbound) is_retryable_llm_error
        1 8 (1/5) jit fuel attempt env).1.2.sent = env.sent ++ List.replicate (fuel + 1) outbound) := by
  intro fuel
  induction fuel with
  | zero =>
    intro attempt env hall hlen
    obtain ⟨r, rest, hr⟩ : ∃ r rest, env.responses = r :: rest := by
      cases henv : env.responses with
      | nil => rw [henv] at hlen; simp at hlen
      | cons a l => exact ⟨a, l, rfl⟩
    obtain ⟨e, he, hret⟩ := hall r (by rw [hr]; exact List.mem_cons_self r rest)
    obtain ⟨resp, non, snt⟩ := env
    simp only at hr
    subst hr he
    rw [retry_async_loop, run_once_error]
    simp [List.replicate, Except.isOk, Except.toBool]
  | succ n ih =>
    intro attempt env hall hlen
    obtain ⟨r, rest, hr⟩ : ∃ r rest, env.responses = r :: rest := by
      cases henv : env.responses with
      | nil => rw [henv] at hlen; simp at hlen
      | cons a l => exact ⟨a, l, rfl⟩
    obtain ⟨e, he, hret⟩ := hall r (by rw [hr]; exact List.mem_cons_self r rest)
    obtain ⟨resp, non, snt⟩ := env
    simp only at hr
    subst hr he
    rw [retry_async_loop, run_once_error]
    simp only [hret, Bool.true_eq_false, if_false, ite_false]
    have hrest : ∀ r ∈ rest, ∃ e, r = Except.error e ∧ is_retryable_llm_error e = true :=
      fun r hmem => hall r (List.mem_cons_of_mem _ hmem)
    have hlen2 : n + 1 ≤ rest.length := by
      simp only [List.length_cons] at hlen; omega
    obtain ⟨i1, i2, i3, i4⟩ := ih (attempt + 1) ⟨rest, non, snt ++ [outbound]⟩ hrest hlen2
    refine ⟨i1, by rw [i2], ?_, ?_⟩
    · rw [i3, List.range_succ_eq_map, List.map_cons, List.map_map]
      rw [if_pos (by norm_num : ¬((1 : ℚ)/5 = 0))]
      congr 1
      apply List.map_congr_left
      intro i _
      simp only [Function.comp_apply, Nat.succ_eq_add_one]
      have e1 : attempt + (i + 1) = attempt + 1 + i := by omega
      rw [e1]
    · rw [i4]
      simp [List.replicate, List.append_assoc]

/-- The unfolding of chat_with_retry into the retry loop over run_once, with
the nonce drawn once up front. -/
lemma chat_with_retry_eq (messages : List Msg) (retries : Nat) (mc : Option Nat)
    (rse : Bool) (ci : String) (jit : Nat → ℚ) (env : ChatEnv) :
    chat_with_retry messages retries mc rse ci jit env =
      retry_async_loop
        (run_once rse mc ci messages (nonce_msg (env.nonces.headD "") :: messages))
        is_retryable_llm_error 1 8 (1/5) jit retries 0
        ⟨env.responses, env.nonces.tail, env.sent⟩ := rfl

theorem c3_amended_nonce_fixed_across_attempts (messages : List Msg) (retries : Nat)
    (mc : Option Nat) (rse : Bool) (ci : String) (jit : Nat → ℚ) (env : ChatEnv)
    (hall : ∀ r ∈ env.responses, ∃ e, r = Except.error e ∧ is_retryable_llm_error e = true)
    (hlen : retries + 1 ≤ env.responses.length) :
    (chat_with_retry messages retries mc rse ci jit env).1.2.sent =
      env.sent ++ List.replicate (retries + 1) (nonce_msg (env.nonces.headD "") :: messages) := by
  rw [chat_with_retry_eq]
  exact (chat_all_fail_loop rse mc ci messages (nonce_msg (env.nonces.headD "") :: messages)
    jit retries 0 ⟨env.responses, env.nonces.tail, env.sent⟩ hall hlen).2.2.2

theorem c3_amended_witness :
    (chat_with_retry [⟨"user", "Hallo"⟩] 1 none true "fertig" (fun _ => 0)
      ⟨[Except.error empty_content_exc, Except.error empty_content_exc],
       ["t1", "t2", "t3"], []⟩).1.2.sent =
      [] ++ List.replicate 2 (nonce_msg "t1" :: [⟨"user", "Hallo"⟩]) :=
  c3_amended_nonce_fixed_across_attempts [⟨"user", "Hallo"⟩] 1 none true "fertig" (fun _ => 0)
    ⟨[Except.error empty_content_exc, Except.error empty_content_exc], ["t1", "t2", "t3"], []⟩
    (by intro r hr
        simp only [List.mem_cons, List.not_mem_nil, or_false] at hr
        rcases hr with h | h <;> exact ⟨empty_content_exc, by rw [h], rfl⟩)
    (by simp)

theorem c5_retry_budget_and_backoff
    (messages : List Msg) (retries : Nat) (mc : Option Nat) (rse : Bool) (ci : String)
    (jit : Nat → ℚ) (env1 env2 : ChatEnv) (e₀ : Exc)
    (hjit : ∀ i, -(1/5 : ℚ) ≤ jit i ∧ jit i ≤ 1/5)
    (hall : ∀ r ∈ env1.responses, ∃ e, r = Except.error e ∧ is_retryable_llm_error e = true)
    (hlen : retries + 1 ≤ env1.responses.length)
    (hhead : env2.responses.headD (Except.error ⟨"no scripted response", false, none⟩)
      = Except.error e₀)
    (hnr : is_retryable_llm_error e₀ = false) :
    ((chat_with_retry messages retries mc rse ci jit env1).1.1.isOk = false) ∧
    ((chat_with_retry messages retries mc rse ci jit env1).2.2 = retries + 1) ∧
    ((chat_with_retry messages retries mc rse ci jit env1).2.1 =
      (List.range retries).map fun i => (min 8 ((2 : ℚ) ^ i)) * (1 + jit (i + 1))) ∧
    ((chat_with_retry messages retries mc rse ci jit env2).1.1 = Except.error e₀) ∧
    ((chat_with_retry messages retries mc rse ci jit env2).2.2 = 1) := by
  obtain ⟨l1, l2, l3, _⟩ := chat_all_fail_loop rse mc ci messages
    (nonce_msg (env1.nonces.headD "") :: messages) jit retries 0
    ⟨env1.responses, env1.nonces.tail, env1.sent⟩ hall hlen
  have hrun2 : run_once rse mc ci messages (nonce_msg (env2.nonces.headD "") :: messages)
      ⟨env2.responses, env2.nonces.tail, env2.sent⟩ =
      (Except.error e₀,
       ⟨env2.responses.tail, env2.nonces.tail,
        env2.sent ++ [nonce_msg (env2.nonces.headD "") :: messages]⟩) := by
    rw [List.headD_eq_head?] at hhead
    simp [run_once, chat_call, hhead]
  refine ⟨?_, ?_, ?_, ?_, ?_⟩
  · rw [chat_with_retry_eq]; exact l1
  · rw [chat_with_retry_eq]; exact l2
  · rw [chat_with_retry_eq, l3]
    apply List.map_congr_left
    intro i _
    have h0 : (0 : ℚ) ≤ (min 8 ((1 : ℚ) * 2 ^ (0 + i))) * (1 + jit (0 + i + 1)) := by
      apply mul_nonneg
      · exact le_min (by norm_num) (by positivity)
      · have := (hjit (0 + i + 1)).1
        linarith
    rw [max_eq_right h0]
    simp only [zero_add, one_mul]
  · rw [chat_with_retry_eq, retry_async_loop, hrun2]
    cases retries with
    | zero => rfl
    | succ n => simp [hnr]
  · rw [chat_with_retry_eq, retry_async_loop, hrun2]
    cases retries with
    | zero => rfl
    | succ n => simp [hnr]

def boom_exc : Exc := ⟨"boom", false, none⟩

theorem c5_witness :
    ((chat_with_retry [⟨"user", "Hi"⟩] 2 none true "f" (fun _ => 0)
      ⟨[Except.error empty_content_exc, Except.error empty_content_exc,
        Except.error empty_content_exc], [], []⟩).1.1.isOk = false) ∧
    ((chat_with_retry [⟨"user", "Hi"⟩] 2 none true "f" (fun _ => 0)
      ⟨[Except.error empty_content_exc, Except.error empty_content_exc,
        Except.error empty_content_exc], [], []⟩).2.2 = 2 + 1) ∧
    ((chat_with_retry [⟨"user", "Hi"⟩] 2 none true "f" (fun _ => 0)
      ⟨[Except.error empty_content_exc, Except.error empty_content_exc,
        Except.error empty_content_exc], [], []⟩).2.1 =
      (List.range 2).map fun i => (min 8 ((2 : ℚ) ^ i)) * (1 + (fun _ => (0 : ℚ)) (i + 1))) ∧
    ((chat_with_retry [⟨"user", "Hi"⟩] 2 none true "f" (fun _ => 0)
      ⟨[Except.error boom_exc], [], []⟩).1.1 = Except.error boom_exc) ∧
    ((chat_with_retry [⟨"user", "Hi"⟩] 2 none true "f" (fun _ => 0)
      ⟨[Except.error boom_exc], [], []⟩).2.2 = 1) :=
  c5_retry_budget_and_backoff [⟨"user", "Hi"⟩] 2 none true "f" (fun _ => 0)
    ⟨[Except.error empty_content_exc, Except.error empty_content_exc,
      Except.error empty_content_exc], [], []⟩
    ⟨[Except.error boom_exc], [], []⟩ boom_exc
    (fun _ => ⟨by norm_num, by norm_num⟩)
    (by intro r hr
        simp only [List.mem_cons, List.not_mem_nil, or_false] at hr
        rcases hr with h | h | h <;> exact ⟨empty_content_exc, by rw [h], rfl⟩)
    (by norm_num)
    rfl
    rfl

/-- Helper: the merge loop leaves the accumulator unchanged when every
gathered branch outcome is an exception. -/
lemma merge_answers_all_fail (answers : List (Except Exc WorldviewAnswer))
    (hall : ∀ a ∈ answers, a.isOk = false) : merge_answers answers = [] := by
  unfold merge_answers
  suffices h : ∀ m, answers.foldl (fun m a => match a with
      | Except.error _ => m
      | Except.ok ans => dict_set m ans.worldview ans) m = m from h []
  induction answers with
  | nil => intro m; rfl
  | cons a rest ih =>
    intro m
    have ha := hall a (List.mem_cons_self _ _)
    cases a with
    | ok v => simp [Except.isOk, Except.toBool] at ha
    | error e =>
      simp only [List.foldl_cons]
      exact ih (fun x hx => hall x (List.mem_cons_of_mem _ hx)) m

theorem c10_all_branches_fail
    (stg : Settings) (embed : String → List ℚ) (concept : String)
    (worldviews : List String) (cfg : RetrievalConfig) (hybrid : Bool)
    (philo_prompt : String → String → List Msg)
    (branch : String → Except Exc WorldviewAnswer)
    (chat_env : ChatEnv) (store store' : StoreEnv) (jit : Nat → ℚ)
    (outcome : RetrievalOutcome) (expl : String) (pm : List Msg)
    (hconcept : ¬ py_strip concept = "")
    (hws : ¬ worldviews = [])
    (hcasc : retrieve_with_widen stg embed concept cfg cfg.k_final_concept hybrid true store =
      (Except.ok outcome, store'))
    (hhits : ¬ outcome.hits = [])
    (hchat : (chat_with_retry (philo_prompt concept (build_context outcome.hits).1) 3 (some 900)
      true "Schliesse den Text sauber ab. Setze einen klaren Schlusssatz." jit chat_env).1.1 =
      Except.ok (expl, pm))
    (hfail : ∀ wv ∈ worldviews, (branch wv).isOk = false) :
    run_concept_explain_worldviews_graph stg embed concept worldviews cfg hybrid
      philo_prompt branch chat_env store jit =
      Except.ok ⟨concept, expl, [], (build_context outcome.hits).2⟩ := by
  unfold run_concept_explain_worldviews_graph
  rw [if_neg hconcept, if_neg hws, hcasc]
  simp only
  rw [if_neg hhits, hchat]
  simp only
  rw [merge_answers_all_fail (worldviews.map branch) ?_]
  · rfl
  · intro a ha
    rw [List.mem_map] at ha
    obtain ⟨wv, hwv, rfl⟩ := ha
    exact hfail wv hwv

/-- Spec-side reading of the context builder, threading the remaining budget:
the texts whose characters fit before the first overflow. -/
def context_included_texts : Nat → List RetrievedSnippet → List String
  | _, [] => []
  | budget, s :: rest =>
    let t := py_strip s.text
    if t = "" then context_included_texts budget rest
    else if budget < t.length then []
    else t :: context_included_texts (budget - t.length) rest

/-- Spec-side reading of the collected refs: the chunk ids of every non-blank
snippet scanned up to AND INCLUDING the snippet that first exceeds the
budget. -/
def context_scanned_refs : Nat → List RetrievedSnippet → List String
  | _, [] => []
  | budget, s :: rest =>
    let t := py_strip s.text
    if t = "" then context_scanned_refs budget rest
    else
      let rs := match extract_chunk_id s.payload with
        | some c => if c = "" then [] else [c]
        | none => []
      if budget < t.length then rs
      else rs ++ context_scanned_refs (budget - t.length) rest

lemma build_context_go_spec (max_chars : Nat) :
    ∀ (snippets : List RetrievedSnippet) (total : Nat) (parts refs : List String),
    total ≤ max_chars →
    build_context.go max_chars snippets total parts refs =
      (parts.reverse ++ context_included_texts (max_chars - total) snippets,
       refs.reverse ++ context_scanned_refs (max_chars - total) snippets) := by
  intro snippets
  induction snippets with
  | nil =>
    intro total parts refs _
    simp [build_context.go, context_included_texts, context_scanned_refs]
  | cons s rest ih =>
    intro total parts refs hle
    rw [build_context.go, context_included_texts, context_scanned_refs]
    by_cases hblank : py_strip s.text = ""
    · simp only [hblank, if_true, ite_true]
      exact ih total parts refs hle
    · simp only [hblank, if_false, ite_false]
      by_cases hover : total + (py_strip s.text).length > max_chars
      · have hlt : max_chars - total < (py_strip s.text).length := by omega
        rw [if_pos hover]
        simp only [if_pos hlt]
        cases hcid : extract_chunk_id s.payload with
        | none => simp
        | some c =>
          by_cases hc : c = ""
          · simp [hc]
          · simp [hc]
      · have hge : ¬ (max_chars - total < (py_strip s.text).length) := by omega
        rw [if_neg hover]
        simp only [if_neg hge]
        have harith : max_chars - (total + (py_strip s.text).length) =
            max_chars - total - (py_strip s.text).length := by omega
        rw [ih (total + (py_strip s.text).length) (py_strip s.text :: parts) _ (by omega), harith]
        cases hcid : extract_chunk_id s.payload with
        | none => simp
        | some c =>
          by_cases hc : c = ""
          · simp [hc]
          · simp [hc]

theorem c9_amended_scanned_refs (snippets : List RetrievedSnippet) (max_chars : Nat) :
    build_context snippets max_chars =
      (py_join "\n\n" (context_included_texts max_chars snippets),
       context_scanned_refs max_chars snippets) := by
  unfold build_context
  rw [build_context_go_spec max_chars snippets 0 [] [] (Nat.zero_le _)]
  simp

/-- Claim C4 counterexample: with a sparse store returning 10 hits of 50
characters each and kFinal 6, the cascade does return exactly 6 hits with
mode sparse, but it widens: the reranked first pass totals 300 characters,
below the 400-character threshold, so widenedHits is NOT empty. -/
theorem c4_counterexample :
    (retrieve_with_widen ⟨false, true⟩ embed0 "Freiheit" {} 6 false true c4_store).1 =
      Except.ok ⟨(hits_to_snippets c4_hits).take 6, hits_to_snippets c4_hits, "sparse"⟩ ∧
    ((hits_to_snippets c4_hits).take 6).length = 6 ∧
    hits_to_snippets c4_hits ≠ [] :=
  ⟨rfl, by decide, by decide⟩

/-- Claim C4 witness for the amended theorem, at the scenario of the claim. -/
theorem c4_amended_witness :
    retrieve_with_widen ⟨false, true⟩ embed0 "Freiheit" {} 6 false true
      ⟨true, [], [Except.ok c4_hits, Except.ok c4_hits]⟩ =
    (Except.ok ⟨rerank_by_embedding embed0 "Freiheit" (hits_to_snippets c4_hits) 6,
      hits_to_snippets c4_hits, "sparse"⟩, ⟨true, [], []⟩) :=
  c4_amended_sparse_widen ⟨false, true⟩ embed0 "Freiheit" {} 6 false [] c4_hits c4_hits
    (by decide) (by decide)

/-- Claim C1 witness for the amended theorem, at the inputs of the
counterexample run. -/
theorem c1_amended_witness :
    retrieve_with_widen ⟨true, true⟩ embed0 "q" {} 6 false false c1_store =
      (if (hits_to_snippets c1_small).length < (hits_to_snippets c1_big).length ∨
          snippets_total_chars (hits_to_snippets c1_small) <
            snippets_total_chars (hits_to_snippets c1_big)
        then (Except.ok ⟨hits_to_snippets c1_big, hits_to_snippets c1_big, "dense" ++ "->hybrid"⟩,
              ⟨true, [], []⟩)
        else (Except.ok ⟨hits_to_snippets c1_small, hits_to_snippets c1_small, "dense"⟩,
              ⟨true, [], []⟩)) :=
  c1_amended_fallback_keep_rule ⟨true, true⟩ embed0 "q" {} 6 c1_store
    ⟨true, [Except.ok [], Except.ok c1_big], [Except.ok []]⟩ ⟨true, [], []⟩
    (hits_to_snippets c1_small) (hits_to_snippets c1_small)
    (hits_to_snippets c1_big) (hits_to_snippets c1_big) "dense" "hybrid"
    rfl rfl rfl (by decide) rfl

/-- Claim C2 witness for the amended theorem: a thin hybrid first pass whose
widened pass runs the dense primitive. -/
theorem c2_amended_witness :
    run_path ⟨true, true⟩ embed0 "q" {} 6 "hybrid" c2_store =
      (Except.ok (rerank_by_embedding embed0 "q" (hits_to_snippets c2_dx) 6,
        hits_to_snippets c2_dx, path_mode_label "hybrid"), ⟨true, [], [Except.ok [mk_hit "other" 500 2]]⟩) ∧
    path_widen_call "hybrid" ⟨true, [Except.ok c2_dx], [Except.ok [mk_hit "other" 500 2]]⟩ =
      dense_retrieve ⟨true, [Except.ok c2_dx], [Except.ok [mk_hit "other" 500 2]]⟩ :=
  c2_amended_widen_primitive ⟨true, true⟩ embed0 "q" {} 6 "hybrid" c2_store
    ⟨true, [Except.ok c2_dx], [Except.ok [mk_hit "other" 500 2]]⟩
    ⟨true, [], [Except.ok [mk_hit "other" 500 2]]⟩
    (hits_to_snippets [mk_hit "sp" 500 1]) (hits_to_snippets c2_dx)
    rfl (by decide) rfl

/-- A 901-character chat response ending in a period: long enough for the
concept step (min 900 chars) and properly terminated. -/
def bigResp : String := String.mk (List.replicate 900 'a' ++ ['.'])

/-- Claim C10 witness: a concrete run whose only branch raises still returns
normally with the concept explanation and refs populated and no worldviews. -/
theorem c10_witness :
    run_concept_explain_worldviews_graph ⟨false, true⟩ embed0 "Freiheit" ["WV1"] {} false
      (fun _ _ => [⟨"user", "x"⟩]) (fun _ => Except.error boom_exc)
      ⟨[Except.ok bigResp], ["t1"], []⟩ c4_store (fun _ => 0) =
      Except.ok ⟨"Freiheit", bigResp, [],
        (build_context ((hits_to_snippets c4_hits).take 6)).2⟩ :=
  c10_all_branches_fail ⟨false, true⟩ embed0 "Freiheit" ["WV1"] {} false
    (fun _ _ => [⟨"user", "x"⟩]) (fun _ => Except.error boom_exc)
    ⟨[Except.ok bigResp], ["t1"], []⟩ c4_store ⟨true, [], []⟩ (fun _ => 0)
    ⟨(hits_to_snippets c4_hits).take 6, hits_to_snippets c4_hits, "sparse"⟩ bigResp
    (nonce_msg "t1" :: [⟨"user", "x"⟩])
    (by decide) (by decide) rfl (by decide) rfl
    (by intro wv _; rfl)

/-! Analysis of reciprocal-rank fusion (claim C7). -/

/-- First-match score lookup in the scores dictionary (0 when absent). -/
def alist_score : List (RrfKey × ℚ) → RrfKey → ℚ
  | [], _ => 0
  | p :: ps, k => if p.1 = k then p.2 else alist_score ps k

/-- The keys the bump loop assigns to a ranked list, rank-aligned. -/
def rrf_keys_from : List RetrievedSnippet → Nat → List RrfKey
  | [], _ => []
  | it :: rest, rank => rrf_key it rank :: rrf_keys_from rest (rank + 1)

/-- The total RRF score one ranked list contributes to a key. -/
def rrf_contrib (w : ℚ) (kr : Nat) : List RetrievedSnippet → Nat → RrfKey → ℚ
  | [], _, _ => 0
  | it :: rest, rank, k =>
      (if rrf_key it rank = k then w * (1 / ((kr : ℚ) + rank)) else 0) +
        rrf_contrib w kr rest (rank + 1) k

lemma dict_bump_score (l : List (RrfKey × ℚ)) (kb : RrfKey) (v : ℚ) (k : RrfKey) :
    alist_score (dict_bump l kb v) k = alist_score l k + (if kb = k then v else 0) := by
  induction l with
  | nil =>
    by_cases h : kb = k <;> simp [dict_bump, alist_score, h]
  | cons p ps ih =>
    simp only [dict_bump]
    by_cases h : p.1 = kb
    · subst h
      simp only [if_pos rfl, alist_score]
      by_cases h2 : p.1 = k
      · simp [h2, alist_score]
      · simp [h2, alist_score]
    · rw [if_neg h]
      simp only [alist_score]
      by_cases h2 : p.1 = k
      · have hkb : ¬ kb = k := fun hh => h (h2.trans hh.symm)
        simp [h2, hkb]
      · simp [h2, ih]

lemma dict_bump_keys (l : List (RrfKey × ℚ)) (kb : RrfKey) (v : ℚ) :
    (dict_bump l kb v).map Prod.fst =
      if kb ∈ l.map Prod.fst then l.map Prod.fst else l.map Prod.fst ++ [kb] := by
  induction l with
  | nil => simp [dict_bump]
  | cons p ps ih =>
    simp only [dict_bump]
    by_cases h : p.1 = kb
    · simp [h]
    · simp only [List.map_cons, if_neg h, List.mem_cons]
      rw [ih]
      have hkb : ¬ kb = p.1 := fun hh => h hh.symm
      by_cases h2 : kb ∈ ps.map Prod.fst
      · simp [h2, hkb]
      · simp [h2, hkb]

lemma rrf_bump_scores_indep (w : ℚ) (kr : Nat) :
    ∀ (items : List RetrievedSnippet) (rank : Nat) (scores : List (RrfKey × ℚ))
      (seen seen' : List (RrfKey × RetrievedSnippet)),
    (rrf_bump w kr items rank scores seen).1 = (rrf_bump w kr items rank scores seen').1 := by
  intro items
  induction items with
  | nil => intro rank scores seen seen'; rfl
  | cons it rest ih =>
    intro rank scores seen seen'
    simp only [rrf_bump]
    exact ih (rank + 1) _ _ _

lemma rrf_bump_score (w : ℚ) (kr : Nat) :
    ∀ (items : List RetrievedSnippet) (rank : Nat) (scores : List (RrfKey × ℚ))
      (seen : List (RrfKey × RetrievedSnippet)) (k : RrfKey),
    alist_score (rrf_bump w kr items rank scores seen).1 k =
      alist_score scores k + rrf_contrib w kr items rank k := by
  intro items
  induction items with
  | nil => intro rank scores seen k; simp [rrf_bump, rrf_contrib]
  | cons it rest ih =>
    intro rank scores seen k
    simp only [rrf_bump, rrf_contrib]
    rw [ih (rank + 1) _ _ k, dict_bump_score]
    ring

lemma rrf_bump_keys_mem (w : ℚ) (kr : Nat) :
    ∀ (items : List RetrievedSnippet) (rank : Nat) (scores : List (RrfKey × ℚ))
      (seen : List (RrfKey × RetrievedSnippet)) (k : RrfKey),
    (k ∈ (rrf_bump w kr items rank scores seen).1.map Prod.fst ↔
      k ∈ scores.map Prod.fst ∨ k ∈ rrf_keys_from items rank) := by
  intro items
  induction items with
  | nil => intro rank scores seen k; simp [rrf_bump, rrf_keys_from]
  | cons it rest ih =>
    intro rank scores seen k
    simp only [rrf_bump, rrf_keys_from, List.mem_cons]
    rw [ih (rank + 1) _ _ k]
    have hk : k ∈ (dict_bump scores (rrf_key it rank) (w * (1 / ((kr : ℚ) + rank)))).map Prod.fst ↔
        k ∈ scores.map Prod.fst ∨ k = rrf_key it rank := by
      rw [dict_bump_keys]
      by_cases h : rrf_key it rank ∈ scores.map Prod.fst
      · simp only [if_pos h]
        constructor
        · exact fun hh => Or.inl hh
        · rintro (hh | hh)
          · exact hh
          · exact hh ▸ h
      · simp [if_neg h, List.mem_append]
    rw [hk]
    tauto

lemma rrf_bump_keys_nodup (w : ℚ) (kr : Nat) :
    ∀ (items : List RetrievedSnippet) (rank : Nat) (scores : List (RrfKey × ℚ))
      (seen : List (RrfKey × RetrievedSnippet)),
    ((scores.map Prod.fst).Nodup) →
    ((rrf_bump w kr items rank scores seen).1.map Prod.fst).Nodup := by
  intro items
  induction items with
  | nil => intro rank scores seen h; exact h
  | cons it rest ih =>
    intro rank scores seen h
    simp only [rrf_bump]
    apply ih (rank + 1)
    rw [dict_bump_keys]
    by_cases hm : rrf_key it rank ∈ scores.map Prod.fst
    · simpa [hm] using h
    · simp only [if_neg hm]
      exact List.Nodup.append h (List.nodup_singleton _) (by simpa using hm)

lemma alist_eq_keys_map (l : List (RrfKey × ℚ)) (h : (l.map Prod.fst).Nodup) :
    l = (l.map Prod.fst).map (fun k => (k, alist_score l k)) := by
  induction l with
  | nil => rfl
  | cons p ps ih =>
    simp only [List.map_cons, List.nodup_cons] at h
    obtain ⟨hp, hps⟩ := h
    simp only [List.map_cons]
    congr 1
    · simp [alist_score]
    · calc ps = (ps.map Prod.fst).map (fun k => (k, alist_score ps k)) := ih hps
        _ = (ps.map Prod.fst).map (fun k => (k, alist_score (p :: ps) k)) := by
            apply List.map_congr_left
            intro k hk
            have hne : ¬ p.1 = k := fun h' => hp (h' ▸ hk)
            simp [alist_score, hne]

lemma alist_perm (l₁ l₂ : List (RrfKey × ℚ))
    (h₁ : (l₁.map Prod.fst).Nodup) (h₂ : (l₂.map Prod.fst).Nodup)
    (hmem : ∀ k, k ∈ l₁.map Prod.fst ↔ k ∈ l₂.map Prod.fst)
    (hscore : ∀ k, alist_score l₁ k = alist_score l₂ k) : List.Perm l₁ l₂ := by
  have hkp : List.Perm (l₁.map Prod.fst) (l₂.map Prod.fst) :=
    (List.perm_ext_iff_of_nodup h₁ h₂).mpr hmem
  have h3 : (l₂.map Prod.fst).map (fun k => (k, alist_score l₁ k)) = l₂ := by
    rw [show (l₂.map Prod.fst).map (fun k => (k, alist_score l₁ k)) =
        (l₂.map Prod.fst).map (fun k => (k, alist_score l₂ k)) from
      List.map_congr_left fun k _ => by rw [hscore k]]
    exact (alist_eq_keys_map l₂ h₂).symm
  rw [alist_eq_keys_map l₁ h₁, ← h3]
  exact hkp.map _

lemma insert_desc_by_perm (key : α → ℚ) (x : α) (l : List α) :
    List.Perm (insert_desc_by key x l) (x :: l) := by
  induction l with
  | nil => exact List.Perm.refl _
  | cons y ys ih =>
    simp only [insert_desc_by]
    by_cases h : key y < key x
    · rw [if_pos h]
    · rw [if_neg h]
      exact (ih.cons y).trans (List.Perm.swap x y ys)

lemma foldl_insert_perm (key : α → ℚ) :
    ∀ (l acc : List α),
    List.Perm (List.foldl (fun acc x => insert_desc_by key x acc) acc l) (acc ++ l) := by
  intro l
  induction l with
  | nil => intro acc; simp
  | cons x xs ih =>
    intro acc
    simp only [List.foldl_cons]
    have t1 := ih (insert_desc_by key x acc)
    have t2 : List.Perm (insert_desc_by key x acc ++ xs) ((x :: acc) ++ xs) :=
      (insert_desc_by_perm key x acc).append_right xs
    have t3 : List.Perm ((x :: acc) ++ xs) (acc ++ x :: xs) := by
      simp only [List.cons_append]
      exact List.perm_middle.symm
    exact (t1.trans t2).trans t3

lemma sort_desc_by_perm (key : α → ℚ) (l : List α) :
    List.Perm (sort_desc_by key l) l := by
  simpa using foldl_insert_perm key l []

lemma insert_desc_by_mem (key : α → ℚ) (x : α) (l : List α) (z : α) :
    z ∈ insert_desc_by key x l ↔ z = x ∨ z ∈ l :=
  by rw [(insert_desc_by_perm key x l).mem_iff]; simp

lemma insert_desc_by_sorted (key : α → ℚ) (x : α) (l : List α)
    (h : l.Pairwise fun a b => key b ≤ key a) :
    (insert_desc_by key x l).Pairwise fun a b => key b ≤ key a := by
  induction l with
  | nil => simp [insert_desc_by]
  | cons y ys ih =>
    simp only [insert_desc_by]
    rw [List.pairwise_cons] at h
    obtain ⟨hy, hys⟩ := h
    by_cases hc : key y < key x
    · rw [if_pos hc]
      rw [List.pairwise_cons]
      constructor
      · intro z hz
        rcases List.mem_cons.mp hz with rfl | hz
        · exact le_of_lt hc
        · exact le_trans (hy z hz) (le_of_lt hc)
      · exact List.Pairwise.cons hy hys
    · rw [if_neg hc]
      rw [List.pairwise_cons]
      constructor
      · intro z hz
        rcases (insert_desc_by_mem key x ys z).mp hz with rfl | hz
        · exact le_of_not_lt hc
        · exact hy z hz
      · exact ih hys

lemma sort_desc_by_sorted (key : α → ℚ) (l : List α) :
    (sort_desc_by key l).Pairwise fun a b => key b ≤ key a := by
  suffices h : ∀ (l acc : List α), (acc.Pairwise fun a b => key b ≤ key a) →
      ((List.foldl (fun acc x => insert_desc_by key x acc) acc l).Pairwise
        fun a b => key b ≤ key a) from h l [] (by simp)
  intro l
  induction l with
  | nil => intro acc h; exact h
  | cons x xs ih =>
    intro acc h
    simp only [List.foldl_cons]
    exact ih _ (insert_desc_by_sorted key x acc h)

lemma sorted_map_snd_eq (l₁ l₂ : List (RrfKey × ℚ)) (hp : List.Perm l₁ l₂) :
    (sort_desc_by Prod.snd l₁).map Prod.snd = (sort_desc_by Prod.snd l₂).map Prod.snd := by
  have anti : IsAntisymm ℚ (fun a b => b ≤ a) := ⟨fun a b h1 h2 => le_antisymm h2 h1⟩
  exact @List.eq_of_perm_of_sorted ℚ (fun a b => b ≤ a) anti _ _
    (((sort_desc_by_perm _ l₁).trans (hp.trans (sort_desc_by_perm _ l₂).symm)).map _)
    ((List.pairwise_map).mpr (sort_desc_by_sorted Prod.snd l₁))
    ((List.pairwise_map).mpr (sort_desc_by_sorted Prod.snd l₂))

/-- The final score each key carries in the fused dictionary: the sum of both
contributions, independent of which list was bumped first. -/
lemma rrf_state_score (A B : List RetrievedSnippet) (kr : Nat) (k : RrfKey) :
    alist_score (rrf_state A B kr).1 k =
      rrf_contrib 1 kr A 1 k + rrf_contrib 1 kr B 1 k := by
  unfold rrf_state
  rw [rrf_bump_score, rrf_bump_score]
  simp [alist_score]

lemma rrf_state_keys_mem (A B : List RetrievedSnippet) (kr : Nat) (k : RrfKey) :
    k ∈ (rrf_state A B kr).1.map Prod.fst ↔
      k ∈ rrf_keys_from A 1 ∨ k ∈ rrf_keys_from B 1 := by
  unfold rrf_state
  rw [rrf_bump_keys_mem, rrf_bump_keys_mem]
  simp

lemma rrf_state_keys_nodup (A B : List RetrievedSnippet) (kr : Nat) :
    ((rrf_state A B kr).1.map Prod.fst).Nodup := by
  unfold rrf_state
  exact rrf_bump_keys_nodup 1 kr B 1 _ _ (rrf_bump_keys_nodup 1 kr A 1 [] [] (by simp))

lemma rrf_ordered_comm (A B : List RetrievedSnippet) (kr : Nat) :
    (rrf_ordered A B kr).map Prod.snd = (rrf_ordered B A kr).map Prod.snd := by
  unfold rrf_ordered
  apply sorted_map_snd_eq
  apply alist_perm
  · exact rrf_state_keys_nodup A B kr
  · exact rrf_state_keys_nodup B A kr
  · intro k
    rw [rrf_state_keys_mem, rrf_state_keys_mem]
    tauto
  · intro k
    rw [rrf_state_score, rrf_state_score]
    ring

/-- The (key, score) pairs the bump loop appends for a fresh ranked list. -/
def rrf_pairs (w : ℚ) (kr : Nat) : List RetrievedSnippet → Nat → List (RrfKey × ℚ)
  | [], _ => []
  | it :: rest, rank =>
      (rrf_key it rank, w * (1 / ((kr : ℚ) + rank))) :: rrf_pairs w kr rest (rank + 1)

/-- The (key, snippet) pairs the bump loop records as first-seen. -/
def rrf_seen_pairs : List RetrievedSnippet → Nat → List (RrfKey × RetrievedSnippet)
  | [], _ => []
  | it :: rest, rank => (rrf_key it rank, it) :: rrf_seen_pairs rest (rank + 1)

lemma rrf_pairs_keys (w : ℚ) (kr : Nat) :
    ∀ (A : List RetrievedSnippet) (rank : Nat),
    (rrf_pairs w kr A rank).map Prod.fst = rrf_keys_from A rank := by
  intro A
  induction A with
  | nil => intro rank; rfl
  | cons it rest ih => intro rank; simp [rrf_pairs, rrf_keys_from, ih (rank + 1)]

lemma rrf_seen_pairs_keys :
    ∀ (A : List RetrievedSnippet) (rank : Nat),
    (rrf_seen_pairs A rank).map Prod.fst = rrf_keys_from A rank := by
  intro A
  induction A with
  | nil => intro rank; rfl
  | cons it rest ih => intro rank; simp [rrf_seen_pairs, rrf_keys_from, ih (rank + 1)]

lemma dict_bump_not_mem (l : List (RrfKey × ℚ)) (kb : RrfKey) (v : ℚ)
    (h : kb ∉ l.map Prod.fst) : dict_bump l kb v = l ++ [(kb, v)] := by
  induction l with
  | nil => rfl
  | cons p ps ih =>
    simp only [List.map_cons, List.mem_cons] at h
    push_neg at h
    have hne : ¬ p.1 = kb := fun hh => h.1 hh.symm
    simp only [dict_bump, if_neg hne]
    rw [ih h.2, List.cons_append]

lemma dict_bump_append_not_mem (P l : List (RrfKey × ℚ)) (kb : RrfKey) (v : ℚ)
    (h : kb ∉ P.map Prod.fst) : dict_bump (P ++ l) kb v = P ++ dict_bump l kb v := by
  induction P with
  | nil => rfl
  | cons p ps ih =>
    simp only [List.map_cons, List.mem_cons] at h
    push_neg at h
    have hne : ¬ p.1 = kb := fun hh => h.1 hh.symm
    simp only [List.cons_append, dict_bump, if_neg hne, List.append_eq]
    rw [ih h.2]

lemma seen_add_not_mem (seen : List (RrfKey × RetrievedSnippet)) (kb : RrfKey)
    (it : RetrievedSnippet) (h : kb ∉ seen.map Prod.fst) :
    seen_add seen kb it = seen ++ [(kb, it)] := by
  induction seen with
  | nil => rfl
  | cons p ps ih =>
    simp only [List.map_cons, List.mem_cons] at h
    push_neg at h
    have hne : ¬ p.1 = kb := fun hh => h.1 hh.symm
    simp only [seen_add, if_neg hne]
    rw [ih h.2, List.cons_append]

lemma seen_add_mem (seen : List (RrfKey × RetrievedSnippet)) (kb : RrfKey)
    (it : RetrievedSnippet) (h : kb ∈ seen.map Prod.fst) :
    seen_add seen kb it = seen := by
  induction seen with
  | nil => simp at h
  | cons p ps ih =>
    simp only [List.map_cons, List.mem_cons] at h
    by_cases h1 : p.1 = kb
    · simp [seen_add, h1]
    · have h2 : kb ∈ ps.map Prod.fst := by
        rcases h with h | h
        · exact absurd h.symm h1
        · exact h
      simp [seen_add, h1, ih h2]

/-- Bumping a list whose keys are all fresh appends its pairs in rank order,
to both the scores dictionary and the seen map. -/
lemma rrf_bump_fresh (w : ℚ) (kr : Nat) :
    ∀ (A : List RetrievedSnippet) (rank : Nat) (scores : List (RrfKey × ℚ))
      (seen : List (RrfKey × RetrievedSnippet)),
    (rrf_keys_from A rank).Nodup →
    (∀ k ∈ rrf_keys_from A rank, k ∉ scores.map Prod.fst ∧ k ∉ seen.map Prod.fst) →
    rrf_bump w kr A rank scores seen =
      (scores ++ rrf_pairs w kr A rank, seen ++ rrf_seen_pairs A rank) := by
  intro A
  induction A with
  | nil => intro rank scores seen _ _; simp [rrf_bump, rrf_pairs, rrf_seen_pairs]
  | cons it rest ih =>
    intro rank scores seen hnd hdisj
    simp only [rrf_keys_from, List.nodup_cons] at hnd
    have hd0 := hdisj (rrf_key it rank) (by simp [rrf_keys_from])
    simp only [rrf_bump]
    rw [dict_bump_not_mem _ _ _ hd0.1, seen_add_not_mem _ _ _ hd0.2]
    rw [ih (rank + 1) _ _ hnd.2 ?_]
    · simp [rrf_pairs, rrf_seen_pairs]
    · intro k hk
      have hdk := hdisj k (by simp [rrf_keys_from, hk])
      constructor
      · simp only [List.map_append, List.mem_append]
        rintro (h | h)
        · exact hdk.1 h
        · simp at h
          exact hnd.1 (h ▸ hk)
      · simp only [List.map_append, List.mem_append]
        rintro (h | h)
        · exact hdk.2 h
        · simp at h
          exact hnd.1 (h ▸ hk)

/-- Bumping the same list a second time doubles each of its scores in place
and leaves the seen map unchanged. -/
lemma rrf_bump_double (w : ℚ) (kr : Nat) :
    ∀ (A : List RetrievedSnippet) (rank : Nat) (P : List (RrfKey × ℚ))
      (seen : List (RrfKey × RetrievedSnippet)),
    (rrf_keys_from A rank).Nodup →
    (∀ k ∈ rrf_keys_from A rank, k ∉ P.map Prod.fst) →
    (∀ k ∈ rrf_keys_from A rank, k ∈ seen.map Prod.fst) →
    rrf_bump w kr A rank (P ++ rrf_pairs w kr A rank) seen =
      (P ++ (rrf_pairs w kr A rank).map (fun p => (p.1, p.2 + p.2)), seen) := by
  intro A
  induction A with
  | nil => intro rank P seen _ _ _; simp [rrf_bump, rrf_pairs]
  | cons it rest ih =>
    intro rank P seen hnd hP hseen
    simp only [rrf_keys_from, List.nodup_cons] at hnd
    have hP0 := hP (rrf_key it rank) (by simp [rrf_keys_from])
    have hs0 := hseen (rrf_key it rank) (by simp [rrf_keys_from])
    simp only [rrf_bump, rrf_pairs]
    rw [dict_bump_append_not_mem P _ _ _ hP0]
    simp only [dict_bump, eq_self_iff_true, if_true, ite_true]
    rw [seen_add_mem _ _ _ hs0]
    rw [show P ++ ((rrf_key it rank, w * (1 / ((kr : ℚ) + rank)) + w * (1 / ((kr : ℚ) + rank))) ::
        rrf_pairs w kr rest (rank + 1))
        = (P ++ [(rrf_key it rank, w * (1 / ((kr : ℚ) + rank)) + w * (1 / ((kr : ℚ) + rank)))]) ++
          rrf_pairs w kr rest (rank + 1)
      from by simp]
    rw [ih (rank + 1) _ _ hnd.2 ?_ ?_]
    · simp
    · intro k hk
      simp only [List.map_append, List.mem_append]
      push_neg
      constructor
      · exact hP k (by simp [rrf_keys_from, hk])
      · simp only [List.map_cons, List.map_nil, List.mem_singleton]
        intro h
        exact hnd.1 (h ▸ hk)
    · intro k hk
      exact hseen k (by simp [rrf_keys_from, hk])

/-- With pairwise-distinct keys, fusing a list with itself yields the pairs
of doubled scores in original order and the first-seen map of the list. -/
lemma rrf_state_self (A : List RetrievedSnippet) (kr : Nat)
    (hnd : (rrf_keys_from A 1).Nodup) :
    rrf_state A A kr =
      ((rrf_pairs 1 kr A 1).map (fun p => (p.1, p.2 + p.2)), rrf_seen_pairs A 1) := by
  unfold rrf_state
  rw [rrf_bump_fresh 1 kr A 1 [] [] hnd (by simp)]
  simp only [List.nil_append]
  have h := rrf_bump_double 1 kr A 1 [] (rrf_seen_pairs A 1) hnd (by simp)
    (by intro k hk; rw [rrf_seen_pairs_keys]; exact hk)
  simpa using h

lemma rrf_pairs_snd_lt (w : ℚ) (kr : Nat) (hw : 0 < w) :
    ∀ (A : List RetrievedSnippet) (rank : Nat), (0 : ℚ) < (kr : ℚ) + rank →
    ∀ p ∈ rrf_pairs w kr A (rank + 1), p.2 < w * (1 / ((kr : ℚ) + rank)) := by
  intro A
  induction A with
  | nil => intro rank _ p hp; simp [rrf_pairs] at hp
  | cons it rest ih =>
    intro rank h0 p hp
    simp only [rrf_pairs, List.mem_cons] at hp
    have hstep : w * (1 / ((kr : ℚ) + (rank + 1))) < w * (1 / ((kr : ℚ) + rank)) := by
      apply mul_lt_mul_of_pos_left _ hw
      apply one_div_lt_one_div_of_lt h0
      linarith
    rcases hp with rfl | hp
    · simpa using hstep
    · have h1 : (0 : ℚ) < (kr : ℚ) + (rank + 1) := by positivity
      have := ih (rank + 1) (by push_cast at h1 ⊢; linarith) p (by simpa using hp)
      calc p.2 < w * (1 / ((kr : ℚ) + (rank + 1))) := by simpa using this
        _ < w * (1 / ((kr : ℚ) + rank)) := hstep

lemma rrf_pairs_pairwise (w : ℚ) (kr : Nat) (hw : 0 < w) :
    ∀ (A : List RetrievedSnippet) (rank : Nat), (0 : ℚ) < (kr : ℚ) + rank →
    (rrf_pairs w kr A rank).Pairwise fun a b => b.2 < a.2 := by
  intro A
  induction A with
  | nil => intro rank _; simp [rrf_pairs]
  | cons it rest ih =>
    intro rank h0
    simp only [rrf_pairs]
    rw [List.pairwise_cons]
    constructor
    · intro p hp
      simpa using rrf_pairs_snd_lt w kr hw rest rank h0 p hp
    · have h1 : (0 : ℚ) < (kr : ℚ) + (rank + 1) := by positivity
      exact ih (rank + 1) (by push_cast at h1 ⊢; linarith)

lemma insert_desc_by_all_ge (key : α → ℚ) (x : α) (l : List α)
    (h : ∀ y ∈ l, ¬ key y < key x) : insert_desc_by key x l = l ++ [x] := by
  induction l with
  | nil => rfl
  | cons y ys ih =>
    simp only [insert_desc_by, if_neg (h y (List.mem_cons_self y ys)), List.cons_append]
    rw [ih fun z hz => h z (List.mem_cons_of_mem y hz)]

lemma foldl_insert_of_sorted (key : α → ℚ) :
    ∀ (l acc : List α),
    (∀ y ∈ acc, ∀ x ∈ l, ¬ key y < key x) →
    (l.Pairwise fun a b => key b < key a) →
    List.foldl (fun acc x => insert_desc_by key x acc) acc l = acc ++ l := by
  intro l
  induction l with
  | nil => intro acc _ _; simp
  | cons x xs ih =>
    intro acc hacc hl
    rw [List.pairwise_cons] at hl
    simp only [List.foldl_cons]
    rw [insert_desc_by_all_ge key x acc fun y hy => hacc y hy x (List.mem_cons_self x xs)]
    rw [ih (acc ++ [x]) ?_ hl.2]
    · simp
    · intro y hy z hz
      rcases List.mem_append.mp hy with hy | hy
      · exact hacc y hy z (List.mem_cons_of_mem x hz)
      · simp only [List.mem_singleton] at hy
        subst hy
        exact lt_asymm (hl.1 z hz)

lemma sort_desc_by_of_sorted (key : α → ℚ) (l : List α)
    (h : l.Pairwise fun a b => key b < key a) : sort_desc_by key l = l := by
  unfold sort_desc_by
  rw [foldl_insert_of_sorted key l [] (by simp) h]
  simp

lemma seen_get_pairs_head (A : List RetrievedSnippet) :
    ∀ (rank : Nat), (rrf_keys_from A rank).Nodup →
    ∀ p ∈ rrf_seen_pairs A rank, seen_get (rrf_seen_pairs A rank) p.1 = some p.2 := by
  induction A with
  | nil => intro rank _ p hp; simp [rrf_seen_pairs] at hp
  | cons it rest ih =>
    intro rank hnd p hp
    simp only [rrf_keys_from, List.nodup_cons] at hnd
    simp only [rrf_seen_pairs, List.mem_cons] at hp
    rcases hp with rfl | hp
    · simp [seen_get]
    · have hp1 : p.1 ∈ rrf_keys_from rest (rank + 1) := by
        rw [← rrf_seen_pairs_keys]
        exact List.mem_map_of_mem Prod.fst hp
      have hne : ¬ rrf_key it rank = p.1 := fun hh => hnd.1 (hh ▸ hp1)
      simp only [seen_get, if_neg hne]
      exact ih (rank + 1) hnd.2 p hp

/-- Truncating the doubled self-fusion pairs and mapping each key back
through the seen map recovers a prefix of the original list. -/
lemma rrf_take_filterMap_self (w : ℚ) (kr : Nat) :
    ∀ (A : List RetrievedSnippet) (rank : Nat) (kf : Nat),
    (rrf_keys_from A rank).Nodup →
    (((rrf_pairs w kr A rank).map (fun p => (p.1, p.2 + p.2))).take kf).filterMap
      (fun p => seen_get (rrf_seen_pairs A rank) p.1) = A.take kf := by
  intro A
  induction A with
  | nil => intro rank kf _; simp [rrf_pairs, rrf_seen_pairs]
  | cons it rest ih =>
    intro rank kf hnd
    cases kf with
    | zero => simp
    | succ m =>
      simp only [rrf_keys_from, List.nodup_cons] at hnd
      have hhead : seen_get ((rrf_key it rank, it) :: rrf_seen_pairs rest (rank + 1))
          (rrf_key it rank) = some it := by simp [seen_get]
      have hcong : List.filterMap
          (fun p => seen_get ((rrf_key it rank, it) :: rrf_seen_pairs rest (rank + 1)) p.1)
          (List.take m ((rrf_pairs w kr rest (rank + 1)).map (fun p => (p.1, p.2 + p.2)))) =
        List.filterMap (fun p => seen_get (rrf_seen_pairs rest (rank + 1)) p.1)
          (List.take m ((rrf_pairs w kr rest (rank + 1)).map (fun p => (p.1, p.2 + p.2)))) := by
        apply List.filterMap_congr
        intro p hp
        have hp1 : p.1 ∈ rrf_keys_from rest (rank + 1) := by
          have hmem : p ∈ (rrf_pairs w kr rest (rank + 1)).map (fun p => (p.1, p.2 + p.2)) :=
            List.mem_of_mem_take hp
          rw [← rrf_pairs_keys w kr]
          have h2 := List.mem_map_of_mem Prod.fst hmem
          simpa [List.map_map, Function.comp] using h2
        have hne : ¬ rrf_key it rank = p.1 := fun hh => hnd.1 (hh ▸ hp1)
        simp [seen_get, if_neg hne]
      simp only [rrf_pairs, rrf_seen_pairs, List.map_cons, List.take_succ_cons,
        List.filterMap_cons, hhead]
      rw [hcong, ih (rank + 1) m hnd.2]

/-- Claim C7: reciprocal-rank fusion is pure and deterministic by
construction; for any two ranked lists the fused score ordering is the same
whichever list comes first (the per-key score sums commute and the sorted
score sequences coincide); and fusing a list with pairwise-distinct chunk
identities with itself returns its own prefix, every relative order
unchanged. -/
theorem c7_rrf_fusion_commutative_and_stable
    (A B : List RetrievedSnippet) (k_rrf k_fused : Nat)
    (hA : (rrf_keys_from A 1).Nodup) :
    ((rrf_ordered A B k_rrf).map Prod.snd = (rrf_ordered B A k_rrf).map Prod.snd) ∧
    rrf_fuse A A k_rrf k_fused = A.take k_fused := by
  constructor
  · exact rrf_ordered_comm A B k_rrf
  · unfold rrf_fuse rrf_ordered
    rw [rrf_state_self A k_rrf hA]
    simp only
    rw [sort_desc_by_of_sorted Prod.snd _ ?_]
    · exact rrf_take_filterMap_self 1 k_rrf A 1 k_fused hA
    · rw [List.pairwise_map]
      have hp := rrf_pairs_pairwise 1 k_rrf (by norm_num) A 1 (by positivity)
      exact hp.imp fun h => add_lt_add h h

/-- Claim C7 witness: the theorem applied to two concrete identified ranked
lists. -/
theorem c7_witness :
    (((rrf_ordered (hits_to_snippets c1_small) (hits_to_snippets c1_big) 60).map Prod.snd =
      (rrf_ordered (hits_to_snippets c1_big) (hits_to_snippets c1_small) 60).map Prod.snd) ∧
    rrf_fuse (hits_to_snippets c1_small) (hits_to_snippets c1_small) 60 30 =
      (hits_to_snippets c1_small).take 30) :=
  c7_rrf_fusion_commutative_and_stable (hits_to_snippets c1_small) (hits_to_snippets c1_big)
    60 30 (by decide)

end Ragrun




